import Mathlib

/-!
Verification of the voice-to-text push-to-talk pipeline.

This file gives a shallow embedding of the core components of the
repository and proves properties about them:

* `RingBuffer` — `src/audio/buffer.rs`: fixed-capacity circular buffer.
* `AudioQuality` — `src/audio/quality.rs`: pre-inference clip validation.
* `VadDetector` — `src/audio/vad.rs`: energy-based silence trimming.
* `ContextManager` — `src/llm/context.rs`: rolling correction context.
* `FallbackCorrector` — `src/llm/fallback.rs`: error-absorbing wrapper.
* `PipelineOrchestrator` — `src/pipeline/runner.rs`: the event-driven
  state machine tying audio, STT, LLM correction and injection together.

Audio samples (`f32` in the source) are modelled as exact rationals `ℚ`;
machine-float rounding is outside the scope of the properties proved here,
which are all structural (ordering, lengths, control flow, state updates).
Asynchronous calls are modelled as explicit function-valued inputs, and
invocations of the external STT / LLM / injection capabilities are recorded
in an explicit effect trace so that claims about which components run can
be stated.
-/

namespace VoiceToText

/-! ## RingBuffer (src/audio/buffer.rs)

A fixed-capacity circular buffer.  `buf` is the backing store (always of
length `capacity`, like the Rust `Vec` allocated once in `new`),
`write_pos` the index of the next write, `len` the number of valid
samples.  The Rust type requires `T: Copy + Default`; the `Default` bound
is modelled by `Inhabited`. -/

structure RingBuffer (α : Type) where
  buf : List α
  capacity : Nat
  write_pos : Nat
  len : Nat

namespace RingBuffer

/-- Mirrors `RingBuffer::new(capacity)`: backing store filled with the
default element, cursors reset.  The Rust constructor panics when
`capacity == 0`; theorems therefore carry the hypothesis `0 < capacity`. -/
def new (α : Type) [Inhabited α] (capacity : Nat) : RingBuffer α :=
  { buf := List.replicate capacity default
    capacity := capacity
    write_pos := 0
    len := 0 }

/-- Body of the `for` loop in `RingBuffer::push_slice`: write one item at
`write_pos`, advance the cursor modulo `capacity`, and saturate `len` at
`capacity`. -/
def pushItem (rb : RingBuffer α) (item : α) : RingBuffer α :=
  { rb with
    buf := rb.buf.set rb.write_pos item
    write_pos := (rb.write_pos + 1) % rb.capacity
    len := if rb.len < rb.capacity then rb.len + 1 else rb.len }

/-- Mirrors `RingBuffer::push_slice`: fold the loop body over the data. -/
def push_slice (rb : RingBuffer α) (data : List α) : RingBuffer α :=
  data.foldl pushItem rb

/-- Mirrors `RingBuffer::clear`. -/
def clear (rb : RingBuffer α) : RingBuffer α :=
  { rb with write_pos := 0, len := 0 }

/-- Mirrors `RingBuffer::drain`: read `len` samples starting at the oldest
one (`0` when the buffer never filled, otherwise `write_pos`, which the
source computes into `read_pos`), then reset.  Returns the drained samples
together with the buffer after the reset. -/
def drain [Inhabited α] (rb : RingBuffer α) : List α × RingBuffer α :=
  if rb.len = 0 then ([], rb)
  else
    ((List.range rb.len).map
        (fun i =>
          rb.buf.getD
            (((if rb.len < rb.capacity then 0 else rb.write_pos) + i) % rb.capacity)
            default),
      rb.clear)

/-- Invariant tying the buffer state to the full chronological sequence
`xs` of samples pushed since `new`: the length saturates at capacity, the
write cursor is the push count modulo capacity, and each of the last
`capacity` pushed samples sits at its residue slot. -/
def Inv [Inhabited α] (cap : Nat) (xs : List α) (rb : RingBuffer α) : Prop :=
  rb.capacity = cap ∧
  rb.buf.length = cap ∧
  rb.len = min xs.length cap ∧
  rb.write_pos = xs.length % cap ∧
  ∀ i : Nat, xs.length - cap ≤ i → i < xs.length →
    rb.buf.getD (i % cap) default = xs.getD i default

end RingBuffer

/-! ## AudioQuality (src/audio/quality.rs)

Pre-transcription validation of a drained clip.  Thresholds and measured
values are exact rationals. -/

/-- Mirrors `AudioError`: the reason a clip failed validation. -/
inductive AudioError where
  | TooShort (min_secs got_secs : ℚ)
  | TooLong (max_secs got_secs : ℚ)
  | TooQuiet (amplitude threshold : ℚ)
  | Clipping (clipped_pct max_pct : ℚ)
  deriving DecidableEq

/-- Mirrors the `AudioQuality` threshold configuration. -/
structure AudioQuality where
  min_recording_secs : ℚ
  max_recording_secs : ℚ
  silence_threshold : ℚ
  clipping_threshold : ℚ
  clipping_max_pct : ℚ
  deriving DecidableEq

/-- Mirrors `impl Default for AudioQuality` (min 0.5 s, max 60 s, silence
floor 0.01, clip amplitude 0.99, max clipped 10 percent). -/
def AudioQuality.defaults : AudioQuality :=
  { min_recording_secs := 1/2
    max_recording_secs := 60
    silence_threshold := 1/100
    clipping_threshold := 99/100
    clipping_max_pct := 10 }

/-- Mirrors `AudioQuality::new(min_secs, max_secs)`. -/
def AudioQuality.new (min_secs max_secs : ℚ) : AudioQuality :=
  { AudioQuality.defaults with
    min_recording_secs := min_secs
    max_recording_secs := max_secs }

/-- Mirrors `AudioQuality::validate`: ordered checks, first failure wins.
Duration is measured at 16 kHz; peak amplitude is a fold of `max` over the
absolute samples starting at `0`; the clipped percentage counts samples
whose absolute value exceeds the clipping threshold. -/
def AudioQuality.validate (q : AudioQuality) (audio : List ℚ) : Except AudioError Unit :=
  let duration_secs : ℚ := (audio.length : ℚ) / 16000
  if duration_secs < q.min_recording_secs then
    Except.error (AudioError.TooShort q.min_recording_secs duration_secs)
  else if q.max_recording_secs < duration_secs then
    Except.error (AudioError.TooLong q.max_recording_secs duration_secs)
  else
    let max_amplitude := (audio.map (fun s => |s|)).foldl max 0
    if max_amplitude < q.silence_threshold then
      Except.error (AudioError.TooQuiet max_amplitude q.silence_threshold)
    else
      if audio.length ≠ 0 then
        let clipped := (audio.filter (fun s => decide (q.clipping_threshold < |s|))).length
        let clipped_pct := (clipped : ℚ) / (audio.length : ℚ) * 100
        if q.clipping_max_pct < clipped_pct then
          Except.error (AudioError.Clipping clipped_pct q.clipping_max_pct)
        else Except.ok ()
      else Except.ok ()

/-! ## VadDetector (src/audio/vad.rs)

Energy-based trimming of leading and trailing silence.  The source
classifies a frame as voice when `mean_sq.sqrt() > rms_threshold`; since
`mean_sq ≥ 0`, this comparison is rendered in exact arithmetic as
`rms_threshold < 0 ∨ rms_threshold² < mean_sq`, which is equivalent to the
square-root comparison over the reals. -/

/-- Mirrors the `VadDetector` configuration. -/
structure VadDetector where
  rms_threshold : ℚ
  frame_size : Nat
  deriving DecidableEq

/-- Mirrors `VadDetector::new` (30 ms frames at 16 kHz). -/
def VadDetector.new (rms_threshold : ℚ) : VadDetector :=
  { rms_threshold, frame_size := 480 }

/-- Mirrors `VadDetector::with_frame_size`.  The Rust constructor panics
when `frame_size == 0`; theorems carry the hypothesis `0 < frame_size`. -/
def VadDetector.with_frame_size (rms_threshold : ℚ) (frame_size : Nat) : VadDetector :=
  { rms_threshold, frame_size }

/-- Mirrors `VadDetector::is_voice_frame`: empty frames are silence,
otherwise the RMS of the chunk is compared against the threshold (squared
rendering of the source's `sqrt` comparison, see above). -/
def VadDetector.is_voice_frame (v : VadDetector) (chunk : List ℚ) : Bool :=
  if chunk.length = 0 then false
  else
    let mean_sq : ℚ := ((chunk.map (fun s => s * s)).sum) / (chunk.length : ℚ)
    decide (v.rms_threshold < 0 ∨ v.rms_threshold * v.rms_threshold < mean_sq)

/-- The slice `audio[s..e]` the source forms for frame `i`, with
`s = i * frame_size` and `e = min ((i+1) * frame_size) audio.len()`. -/
def VadDetector.frameAt (v : VadDetector) (audio : List ℚ) (i : Nat) : List ℚ :=
  (audio.drop (i * v.frame_size)).take
    (min ((i + 1) * v.frame_size) audio.length - i * v.frame_size)

/-- Mirrors `total_frames = (audio.len() + frame_size - 1) / frame_size`. -/
def VadDetector.total_frames (v : VadDetector) (audio : List ℚ) : Nat :=
  (audio.length + v.frame_size - 1) / v.frame_size

/-- Mirrors `VadDetector::trim_silence`: the first voice frame is the
source's forward `find`, the last one its backward `rfind` (modelled as a
forward search on the reversed index range); the result is the sub-range
from the first to the last voice frame, and an empty list when no frame
qualifies (the source's `&audio[0..0]`). -/
def VadDetector.trim_silence (v : VadDetector) (audio : List ℚ) : List ℚ :=
  if audio.isEmpty then audio
  else
    match (List.range (v.total_frames audio)).find?
        (fun i => v.is_voice_frame (v.frameAt audio i)) with
    | none => []
    | some start_frame =>
      let end_frame :=
        (((List.range (v.total_frames audio)).reverse.find?
            (fun i => v.is_voice_frame (v.frameAt audio i))).getD start_frame)
      let s := start_frame * v.frame_size
      let e := min ((end_frame + 1) * v.frame_size) audio.length
      (audio.drop s).take (e - s)

/-! ## ContextManager (src/llm/context.rs)

Rolling window of corrected sentences.  `Instant`-based wall-clock time is
modelled as an explicit rational timestamp passed to `push_sentence`; the
`DomainDetector` and `UserVocabulary` submodules (not the subject of any
property proved here) are abstracted as function-valued fields consulted
by `build_context` exactly where the source consults them. -/

structure ContextManager where
  sentences : List String
  max_sentences : Nat
  domain_detect : String → Option String
  vocab_top : Nat → List (String × String)
  last_activity : ℚ
  silence_reset : ℚ

/-- The `while self.sentences.len() > self.max_sentences { pop_front }`
loop of `push_sentence`, as a structural recursion dropping from the
front. -/
def trimToMax (max_sentences : Nat) : List String → List String
  | [] => []
  | s :: rest =>
      if max_sentences < (s :: rest).length then trimToMax max_sentences rest
      else s :: rest

/-- Mirrors `ContextManager::push_sentence` at wall-clock time `now`:
clear the window when the elapsed silence exceeds the reset threshold,
append, trim the front down to the window bound, record activity. -/
def ContextManager.push_sentence (m : ContextManager) (now : ℚ) (sentence : String) :
    ContextManager :=
  let kept := if m.silence_reset < now - m.last_activity then [] else m.sentences
  { m with
    sentences := trimToMax m.max_sentences (kept ++ [sentence])
    last_activity := now }

/-- Mirrors `ContextManager::reset`. -/
def ContextManager.reset (m : ContextManager) : ContextManager :=
  { m with sentences := [] }

/-- Mirrors `ContextManager::with_capacity` (the submodules and the
creation time are explicit parameters, see above). -/
def ContextManager.with_capacity (domain_detect : String → Option String)
    (vocab_top : Nat → List (String × String)) (now : ℚ)
    (max_sentences : Nat) (silence_reset_secs : ℚ) : ContextManager :=
  { sentences := []
    max_sentences
    domain_detect
    vocab_top
    last_activity := now
    silence_reset := silence_reset_secs }

/-- Mirrors `ContextManager::new`: window bound 3, silence reset 120 s. -/
def ContextManager.new (domain_detect : String → Option String)
    (vocab_top : Nat → List (String × String)) (now : ℚ) : ContextManager :=
  ContextManager.with_capacity domain_detect vocab_top now 3 120

/-- Mirrors `ContextManager::build_context`: `None` on an empty window,
otherwise the optional domain line, the optional user-vocabulary section
(top 5 entries), and the window's sentences oldest first. -/
def ContextManager.build_context (m : ContextManager) : Option String :=
  if m.sentences.isEmpty then none
  else
    let all_text := String.intercalate " " m.sentences
    let domainPart :=
      match m.domain_detect all_text with
      | some domain => "Domain: " ++ domain ++ "\n"
      | none => ""
    let vocab := m.vocab_top 5
    let vocabPart :=
      if vocab.isEmpty then ""
      else
        "User-specific terms:\n" ++
          String.join (vocab.map (fun p => "- \"" ++ p.1 ++ "\" → \"" ++ p.2 ++ "\"\n"))
    let sentencesPart :=
      "Previous context:\n" ++ String.join (m.sentences.map (fun s => "- " ++ s ++ "\n"))
    some (domainPart ++ vocabPart ++ sentencesPart)

/-- Iterated `push_sentence` over a chronological list of timestamped
sentences. -/
def ContextManager.pushAll (m : ContextManager) : List (ℚ × String) → ContextManager
  | [] => m
  | p :: rest => (m.push_sentence p.1 p.2).pushAll rest

/-- Side condition on a chronological list of timestamped pushes: no
elapsed gap between consecutive pushes exceeds the silence-reset
threshold, so the clearing branch of `push_sentence` never fires.  This
is the regime in which the window holds the most recently pushed
sentences. -/
def NoGap (m : ContextManager) : List (ℚ × String) → Prop
  | [] => True
  | p :: rest =>
      ¬ (m.silence_reset < p.1 - m.last_activity) ∧
        NoGap (m.push_sentence p.1 p.2) rest

/-! ## LlmError and FallbackCorrector (src/llm/corrector.rs, src/llm/fallback.rs) -/

/-- Mirrors `LlmError`: the typed failures of an LLM correction call. -/
inductive LlmError where
  | Request (msg : String)
  | Timeout
  | Parse (msg : String)
  | EmptyResponse
  deriving DecidableEq

/-- Mirrors `FallbackCorrector::correct`.  The wrapped corrector (a trait
object in the source) is modelled as a function from the raw text and the
optional context to a result; on success its output is passed through, on
any failure the raw input is returned as a success. -/
def FallbackCorrector.correct (inner : String → Option String → Except LlmError String)
    (raw : String) (context : Option String) : Except LlmError String :=
  match inner raw context with
  | Except.ok corrected => Except.ok corrected
  | Except.error _ => Except.ok raw

/-! ## Pipeline state and shared application state (src/pipeline/state.rs) -/

/-- Mirrors `PipelineState`. -/
inductive PipelineState where
  | Idle
  | Recording
  | Transcribing
  | Correcting
  | Result
  | Error
  deriving DecidableEq

/-- Mirrors `PipelineState::is_busy`. -/
def PipelineState.is_busy : PipelineState → Bool
  | PipelineState.Recording => true
  | PipelineState.Transcribing => true
  | PipelineState.Correcting => true
  | _ => false

/-- Mirrors `OperatingMode` (src/config/settings.rs). -/
inductive OperatingMode where
  | Fast
  | Standard
  | Context
  deriving DecidableEq

/-- Configuration snapshot carried in the shared state.  Of the source's
`AppConfig` only `operating_mode` is ever read by the orchestrator, so the
model keeps exactly that field. -/
structure AppConfig where
  operating_mode : OperatingMode
  deriving DecidableEq

/-- Mirrors `AppState`: the cross-thread read model mutated only by the
orchestrator. -/
structure AppState where
  pipeline : PipelineState
  last_text : Option String
  raw_text : Option String
  waveform : List ℚ
  config : AppConfig
  error_message : Option String
  recording_secs : ℚ
  deriving DecidableEq

/-- Mirrors `AppState::new`. -/
def AppState.new (config : AppConfig) : AppState :=
  { pipeline := PipelineState.Idle
    last_text := none
    raw_text := none
    waveform := []
    config
    error_message := none
    recording_secs := 0 }

/-! ## Orchestrator (src/pipeline/runner.rs, src/hotkey/mod.rs) -/

/-- Mirrors `HotkeyEvent`: the orchestrator's full event alphabet. -/
inductive HotkeyEvent where
  | PushToTalkPressed
  | PushToTalkReleased
  | ToggleVisibility
  deriving DecidableEq

/-- Mirrors `PipelineError`. -/
inductive PipelineError where
  | EmptyAudio
  | Stt (msg : String)
  | Inject (msg : String)
  | Internal (msg : String)
  deriving DecidableEq

/-- Mirrors the `Display` implementation of `PipelineError`. -/
def PipelineError.toMessage : PipelineError → String
  | PipelineError.EmptyAudio => "No audio captured — hold the hotkey longer"
  | PipelineError.Stt msg => "Transcription failed: " ++ msg
  | PipelineError.Inject msg => "Text injection failed: " ++ msg
  | PipelineError.Internal msg => "Internal error: " ++ msg

/-- Outcome of awaiting a `tokio::task::spawn_blocking` handle: the
spawned closure's value, or a join failure with its message. -/
inductive JoinResult (α : Type) where
  | ok (value : α)
  | panicked (msg : String)
  deriving DecidableEq

/-- An invocation of one of the injected external capabilities during a
release cycle.  `handle_released` is instrumented to record these so that
properties about which components run can be stated. -/
inductive Effect where
  | sttCall (audio : List ℚ)
  | llmCall (raw : String) (context : Option String)
  | injectCall (text : String)
  deriving DecidableEq

/-- The environment of one release cycle: the injected STT engine (run
through `spawn_blocking`, hence the `JoinResult` layer), the LLM corrector
(its error type is `LlmError`), the text injector, and the wall-clock
time at which a corrected sentence would be pushed into the context
window.  STT and injection error payloads are kept as the strings the
orchestrator formats them into. -/
structure ReleaseEnv where
  stt : List ℚ → JoinResult (Except String String)
  llm : String → Option String → Except LlmError String
  inject : String → JoinResult (Except String Unit)
  now : ℚ

/-- The orchestrator's owned state: the shared `AppState`, the shared
audio ring buffer, and the rolling context manager. -/
structure OrcState where
  shared : AppState
  audio_buf : RingBuffer ℚ
  context : ContextManager

/-- Mirrors the `set_pipeline` helper. -/
def AppState.set_pipeline (st : AppState) (p : PipelineState) : AppState :=
  { st with pipeline := p }

/-- Mirrors the `set_error` helper: enter `Error` and store the message. -/
def AppState.set_error (st : AppState) (message : String) : AppState :=
  { st with pipeline := PipelineState.Error, error_message := some message }

/-- Mirrors the finalisation block at the end of `handle_released`
(step 5): enter `Result`, store the final text, clear the raw text. -/
def AppState.finalise (st : AppState) (final_text : String) : AppState :=
  { st with
    pipeline := PipelineState.Result
    last_text := some final_text
    raw_text := none }

/-- Mirrors `PipelineOrchestrator::handle_pressed`: clear the audio
buffer, enter `Recording`, reset the recording timer and any stale
error. -/
def PipelineOrchestrator.handle_pressed (o : OrcState) : OrcState :=
  { o with
    audio_buf := o.audio_buf.clear
    shared :=
      { o.shared with
        pipeline := PipelineState.Recording
        recording_secs := 0
        error_message := none } }

/-- Mirrors `PipelineOrchestrator::handle_released`, step for step:

1. drain the audio buffer (an empty drain surfaces `EmptyAudio` and
   stops the cycle), record the duration at 16 kHz;
2. enter `Transcribing` and run STT through the worker pool — an engine
   error or a join failure surfaces as `Error` with the formatted message;
3. store the raw text, then branch on the operating mode: `Fast` skips
   correction, otherwise enter `Correcting`, build the context and call
   the LLM — on success push the corrected sentence into the context
   window, on failure fall back to the raw text;
4. dispatch injection (its outcome is only logged by the source, so the
   model records the call and discards the result);
5. finalise into `Result`.

The returned trace lists the external capability invocations in order.
The source's handling of a poisoned buffer lock is a concurrency artefact
with no counterpart in this sequential model. -/
def PipelineOrchestrator.handle_released (o : OrcState) (env : ReleaseEnv) :
    OrcState × List Effect :=
  let drained := o.audio_buf.drain
  let audio := drained.1
  let buf1 := drained.2
  if audio.isEmpty then
    ({ o with
        audio_buf := buf1
        shared := o.shared.set_error PipelineError.EmptyAudio.toMessage }, [])
  else
    let st1 := { o.shared with recording_secs := (audio.length : ℚ) / 16000 }
    let st2 := st1.set_pipeline PipelineState.Transcribing
    match env.stt audio with
    | JoinResult.panicked e =>
        ({ o with
            audio_buf := buf1
            shared := st2.set_error (PipelineError.Internal e).toMessage },
          [Effect.sttCall audio])
    | JoinResult.ok (Except.error e) =>
        ({ o with
            audio_buf := buf1
            shared := st2.set_error (PipelineError.Stt e).toMessage },
          [Effect.sttCall audio])
    | JoinResult.ok (Except.ok raw_text) =>
        let st3 := { st2 with raw_text := some raw_text }
        if st3.config.operating_mode = OperatingMode.Fast then
          let final_text := raw_text
          let _inject_result := env.inject final_text
          ({ shared := st3.finalise final_text
             audio_buf := buf1
             context := o.context },
            [Effect.sttCall audio, Effect.injectCall final_text])
        else
          let st4 := st3.set_pipeline PipelineState.Correcting
          let contextStr := o.context.build_context
          match env.llm raw_text contextStr with
          | Except.ok corrected =>
              let _inject_result := env.inject corrected
              ({ shared := st4.finalise corrected
                 audio_buf := buf1
                 context := o.context.push_sentence env.now corrected },
                [Effect.sttCall audio, Effect.llmCall raw_text contextStr,
                  Effect.injectCall corrected])
          | Except.error _ =>
              let _inject_result := env.inject raw_text
              ({ shared := st4.finalise raw_text
                 audio_buf := buf1
                 context := o.context },
                [Effect.sttCall audio, Effect.llmCall raw_text contextStr,
                  Effect.injectCall raw_text])

/-- Mirrors the event dispatch of `PipelineOrchestrator::run`: a press
runs `handle_pressed`, a release runs `handle_released`, and a
visibility toggle is ignored by the state machine. -/
def PipelineOrchestrator.step (o : OrcState) (env : ReleaseEnv) :
    HotkeyEvent → OrcState × List Effect
  | HotkeyEvent.PushToTalkPressed => (PipelineOrchestrator.handle_pressed o, [])
  | HotkeyEvent.PushToTalkReleased => PipelineOrchestrator.handle_released o env
  | HotkeyEvent.ToggleVisibility => (o, [])

/-- Modelled from the spec: what it means for an event to act as the
explicit cancel command the specification describes — received in any
busy state it clears the ring buffer and forces the pipeline state to
`Idle` immediately, with no other effect on the shared state.  This
definition follows the specification's words so that it can be compared
against the orchestrator's actual event handling. -/
def CancelSpec (e : HotkeyEvent) : Prop :=
  ∀ (o : OrcState) (env : ReleaseEnv),
    o.shared.pipeline.is_busy = true →
      ((PipelineOrchestrator.step o env e).1.shared.pipeline = PipelineState.Idle ∧
        (PipelineOrchestrator.step o env e).1.audio_buf.len = 0 ∧
        (PipelineOrchestrator.step o env e).1.shared.last_text = o.shared.last_text ∧
        (PipelineOrchestrator.step o env e).1.shared.raw_text = o.shared.raw_text ∧
        (PipelineOrchestrator.step o env e).1.shared.waveform = o.shared.waveform ∧
        (PipelineOrchestrator.step o env e).1.shared.config = o.shared.config ∧
        (PipelineOrchestrator.step o env e).1.shared.error_message = o.shared.error_message ∧
        (PipelineOrchestrator.step o env e).1.shared.recording_secs = o.shared.recording_secs)

/-! ## Concrete sample states

Fixed inputs used by counterexamples and witnesses. -/

/-- A context manager with no detected domain and no user vocabulary. -/
def sampleContext : ContextManager :=
  ContextManager.with_capacity (fun _ => none) (fun _ => []) 0 3 120

/-- A benign release environment: STT and injection succeed, the LLM
echoes a fixed correction. -/
def sampleEnv : ReleaseEnv :=
  { stt := fun _ => JoinResult.ok (Except.ok "raw")
    llm := fun _ _ => Except.ok "corrected"
    inject := fun _ => JoinResult.ok (Except.ok ())
    now := 1 }

/-- A busy (Recording) orchestrator state in Fast mode whose audio buffer
is empty. -/
def sampleBusyEmpty : OrcState :=
  { shared :=
      { pipeline := PipelineState.Recording
        last_text := none
        raw_text := none
        waveform := []
        config := { operating_mode := OperatingMode.Fast }
        error_message := none
        recording_secs := 0 }
    audio_buf := RingBuffer.new ℚ 4
    context := sampleContext }

/-- The same busy state with one sample in the audio buffer. -/
def sampleBusyNonEmpty : OrcState :=
  { sampleBusyEmpty with audio_buf := (RingBuffer.new ℚ 4).push_slice [1] }

/-- A Recording state in Fast mode holding a clip of 10 samples of
amplitude 1/2 — 10 samples at 16 kHz last 1/1600 s, well below the 0.5 s
minimum of `AudioQuality.defaults`. -/
def sampleShortClipState : OrcState :=
  { sampleBusyEmpty with
    audio_buf := (RingBuffer.new ℚ 16).push_slice (List.replicate 10 (1/2 : ℚ)) }

namespace RingBuffer

theorem inv_new (α : Type) [Inhabited α] (cap : Nat) :
    Inv cap ([] : List α) (new α cap) := by
  refine ⟨rfl, by simp [new], by simp [new], by simp [new], ?_⟩
  intro i _ h2
  simp at h2

theorem inv_pushItem [Inhabited α] {cap : Nat} (hcap : 0 < cap) {xs : List α}
    {rb : RingBuffer α} (a : α) (h : Inv cap xs rb) :
    Inv cap (xs ++ [a]) (rb.pushItem a) := by
  obtain ⟨hc, hbl, hlen, hwp, hget⟩ := h
  refine ⟨by simp [pushItem, hc], by simp [pushItem, hbl], ?_, ?_, ?_⟩
  · simp only [pushItem, hlen, hc, List.length_append, List.length_singleton]
    split <;> omega
  · simp only [pushItem, hwp, hc, List.length_append, List.length_singleton]
    rw [Nat.mod_add_mod]
  · intro i h1 h2
    simp only [List.length_append, List.length_singleton] at h1 h2
    simp only [pushItem]
    by_cases hi : i = xs.length
    · subst hi
      have hmod : xs.length % cap < rb.buf.length := by
        rw [hbl]; exact Nat.mod_lt _ hcap
      rw [hwp, List.getD_eq_getElem _ _ (by simpa using hmod),
        List.getElem_set_self,
        List.getD_append_right _ _ _ _ (le_refl _)]
      simp
    · have hilt : i < xs.length := by omega
      have hne : rb.write_pos ≠ i % cap := by
        rw [hwp]
        intro heq
        have hdvd : cap ∣ xs.length - i :=
          (Nat.modEq_iff_dvd' hilt.le).mp heq.symm
        have hpos : 0 < xs.length - i := by omega
        have hsmall : xs.length - i < cap := by omega
        exact absurd (Nat.le_of_dvd hpos hdvd) (by omega)
      have hmod : i % cap < rb.buf.length := by
        rw [hbl]; exact Nat.mod_lt _ hcap
      calc (List.set rb.buf rb.write_pos a).getD (i % cap) default
          = rb.buf.getD (i % cap) default := by
            rw [List.getD_eq_getElem _ _ (by simpa using hmod),
              List.getElem_set_ne hne, ← List.getD_eq_getElem _ _ hmod]
        _ = xs.getD i default := hget i (by omega) hilt
        _ = (xs ++ [a]).getD i default := (List.getD_append _ _ _ _ hilt).symm

theorem inv_push_slice [Inhabited α] {cap : Nat} (hcap : 0 < cap) (xs : List α) :
    Inv cap xs ((new α cap).push_slice xs) := by
  induction xs using List.reverseRecOn with
  | nil => exact inv_new α cap
  | append_singleton ys a ih =>
    have : (new α cap).push_slice (ys ++ [a]) = ((new α cap).push_slice ys).pushItem a := by
      simp [push_slice, List.foldl_append]
    rw [this]
    exact inv_pushItem hcap a ih

/-- Draining after a chronological sequence of pushes yields the suffix of
the last `capacity` samples (the whole sequence when it fits). -/
theorem drain_push_slice_new [Inhabited α] {cap : Nat} (hcap : 0 < cap)
    (xs : List α) :
    (((new α cap).push_slice xs).drain).1 = xs.drop (xs.length - cap) := by
  obtain ⟨hc, hbl, hlen, hwp, hget⟩ := inv_push_slice (α := α) hcap xs
  set rb := (new α cap).push_slice xs with hrb
  by_cases h0 : rb.len = 0
  · have hx : xs.length = 0 := by
      rw [hlen] at h0; omega
    have hxnil : xs = [] := List.length_eq_zero.mp hx
    subst hxnil
    simp [drain, h0]
  · rw [drain, if_neg h0]
    apply List.ext_getElem
    · simp only [List.length_map, List.length_range, List.length_drop, hlen]
      omega
    · intro n hn1 hn2
      simp only [List.length_map, List.length_range, hlen] at hn1
      have hj : (((if rb.len < rb.capacity then 0 else rb.write_pos) + n) % cap)
          = ((xs.length - cap) + n) % cap := by
        by_cases hfull : rb.len < rb.capacity
        · rw [if_pos hfull]
          have : xs.length < cap := by
            rw [hlen, hc] at hfull; omega
          have hz : xs.length - cap = 0 := by omega
          rw [hz]
        · rw [if_neg hfull, hwp, Nat.mod_add_mod]
          have hge : cap ≤ xs.length := by
            rw [hlen, hc] at hfull; omega
          conv_rhs => rw [← Nat.add_mod_right (xs.length - cap + n) cap]
          congr 1
          omega
      have hjlt : (xs.length - cap) + n < xs.length := by omega
      have hjge : xs.length - cap ≤ (xs.length - cap) + n := Nat.le_add_right _ _
      rw [hc] at hj
      simp only [List.getElem_map, List.getElem_range, hc]
      rw [hj, hget _ hjge hjlt, List.getD_eq_getElem _ _ hjlt, List.getElem_drop]

/-- Folding `push_slice` over a sequence of slices is the same as pushing
their concatenation. -/
theorem push_slice_foldl (rb : RingBuffer α) (slices : List (List α)) :
    slices.foldl RingBuffer.push_slice rb = rb.push_slice slices.flatten := by
  induction slices generalizing rb with
  | nil => simp [push_slice]
  | cons s rest ih =>
    simp only [List.foldl_cons, List.flatten_cons, push_slice, List.foldl_append]
    exact ih (rb.push_slice s)

end RingBuffer

/-! ## Claim theorems -/

/-- C4: for every sequence of `push_slice` calls on a `RingBuffer`, when
the total number of pushed samples fits within the capacity `drain`
returns all pushed samples in push order, and when it exceeds the
capacity `drain` returns exactly the last `capacity` samples pushed, in
their original chronological order. -/
theorem C4_ring_buffer_overflow {α : Type} [Inhabited α] (cap : Nat) (hcap : 0 < cap)
    (slices : List (List α)) :
    (slices.flatten.length ≤ cap →
      ((slices.foldl RingBuffer.push_slice (RingBuffer.new α cap)).drain).1
        = slices.flatten) ∧
    (cap < slices.flatten.length →
      ((slices.foldl RingBuffer.push_slice (RingBuffer.new α cap)).drain).1
          = slices.flatten.drop (slices.flatten.length - cap) ∧
        ((slices.foldl RingBuffer.push_slice (RingBuffer.new α cap)).drain).1.length
          = cap) := by
  rw [RingBuffer.push_slice_foldl]
  constructor
  · intro h
    rw [RingBuffer.drain_push_slice_new hcap]
    have hz : slices.flatten.length - cap = 0 := by omega
    rw [hz, List.drop_zero]
  · intro h
    refine ⟨RingBuffer.drain_push_slice_new hcap _, ?_⟩
    rw [RingBuffer.drain_push_slice_new hcap, List.length_drop]
    omega

/-- Witness for C4: capacity 4, two pushes totalling 5 samples, the drain
yields the last 4 in order. -/
theorem C4_ring_buffer_overflow_witness :
    (0 : Nat) < 4 ∧
      ((([[1, 2, 3], [4, 5]] : List (List ℚ)).foldl RingBuffer.push_slice
            (RingBuffer.new ℚ 4)).drain).1 = [2, 3, 4, 5] := by
  refine ⟨by norm_num, ?_⟩
  have h :=
    (C4_ring_buffer_overflow (α := ℚ) 4 (by norm_num) [[1, 2, 3], [4, 5]]).2 (by decide)
  exact h.1.trans (by decide)

/-- C5: `FallbackCorrector::correct` never returns an error — a success
of the wrapped corrector is passed through unchanged, and on any failure
the result is `Ok` with the raw input text returned unchanged. -/
theorem C5_fallback_never_errors
    (inner : String → Option String → Except LlmError String)
    (raw : String) (context : Option String) :
    (∃ t, FallbackCorrector.correct inner raw context = Except.ok t) ∧
    (∀ c, inner raw context = Except.ok c →
      FallbackCorrector.correct inner raw context = Except.ok c) ∧
    (∀ e, inner raw context = Except.error e →
      FallbackCorrector.correct inner raw context = Except.ok raw) := by
  cases h : inner raw context with
  | ok c =>
      refine ⟨⟨c, ?_⟩, ?_, ?_⟩ <;>
        simp [FallbackCorrector.correct, h]
  | error e =>
      refine ⟨⟨raw, ?_⟩, ?_, ?_⟩ <;>
        simp [FallbackCorrector.correct, h]

/-- C6: a release whose drained audio is empty ends the cycle in `Error`
with a non-empty error message, and neither STT, nor correction, nor
injection is invoked (the effect trace is empty). -/
theorem C6_empty_drain_is_error (o : OrcState) (env : ReleaseEnv)
    (h : (o.audio_buf.drain).1 = []) :
    (PipelineOrchestrator.handle_released o env).1.shared.pipeline = PipelineState.Error ∧
    (PipelineOrchestrator.handle_released o env).1.shared.error_message
        = some PipelineError.EmptyAudio.toMessage ∧
    PipelineError.EmptyAudio.toMessage ≠ "" ∧
    (PipelineOrchestrator.handle_released o env).2 = [] := by
  have hE : (o.audio_buf.drain).1.isEmpty = true := by
    rw [h]; rfl
  refine ⟨?_, ?_, by decide, ?_⟩ <;>
    simp [PipelineOrchestrator.handle_released, hE, AppState.set_error]

/-- Witness for C6: a release on an orchestrator whose ring buffer is
empty. -/
theorem C6_empty_drain_is_error_witness :
    (sampleBusyEmpty.audio_buf.drain).1 = [] ∧
      (PipelineOrchestrator.handle_released sampleBusyEmpty sampleEnv).1.shared.pipeline
        = PipelineState.Error := by
  exact ⟨by decide, (C6_empty_drain_is_error sampleBusyEmpty sampleEnv (by decide)).1⟩

/-- C9: in Fast mode a cycle whose STT succeeds ends in `Result`, the
final text equals the raw STT output exactly, and the LLM corrector is
never invoked. -/
theorem C9_fast_mode_skips_llm (o : OrcState) (env : ReleaseEnv) (raw : String)
    (hmode : o.shared.config.operating_mode = OperatingMode.Fast)
    (hne : (o.audio_buf.drain).1 ≠ [])
    (hstt : env.stt (o.audio_buf.drain).1 = JoinResult.ok (Except.ok raw)) :
    (PipelineOrchestrator.handle_released o env).1.shared.pipeline = PipelineState.Result ∧
    (PipelineOrchestrator.handle_released o env).1.shared.last_text = some raw ∧
    ∀ s c, Effect.llmCall s c ∉ (PipelineOrchestrator.handle_released o env).2 := by
  have hE : (o.audio_buf.drain).1.isEmpty = false := by
    simp [List.isEmpty_iff, hne]
  refine ⟨?_, ?_, ?_⟩ <;>
    simp [PipelineOrchestrator.handle_released, hE, hstt, hmode,
      AppState.set_pipeline, AppState.finalise]

/-- Witness for C9: Fast mode, one buffered sample, STT returning a fixed
string. -/
theorem C9_fast_mode_skips_llm_witness :
    (PipelineOrchestrator.handle_released sampleBusyNonEmpty sampleEnv).1.shared.last_text
      = some "raw" := by
  exact (C9_fast_mode_skips_llm sampleBusyNonEmpty sampleEnv "raw" (by decide) (by decide)
    rfl).2.1

/-- C3: in a correction-enabled (non-Fast) mode, a cycle in which the LLM
corrector errors still ends in `Result` (never `Error`), and the final
text stored in `last_text` and sent to injection equals the raw STT
output. -/
theorem C3_llm_failure_falls_back_to_raw (o : OrcState) (env : ReleaseEnv)
    (raw : String) (e : LlmError)
    (hmode : o.shared.config.operating_mode ≠ OperatingMode.Fast)
    (hne : (o.audio_buf.drain).1 ≠ [])
    (hstt : env.stt (o.audio_buf.drain).1 = JoinResult.ok (Except.ok raw))
    (hllm : env.llm raw o.context.build_context = Except.error e) :
    (PipelineOrchestrator.handle_released o env).1.shared.pipeline = PipelineState.Result ∧
    (PipelineOrchestrator.handle_released o env).1.shared.last_text = some raw ∧
    Effect.injectCall raw ∈ (PipelineOrchestrator.handle_released o env).2 := by
  have hE : (o.audio_buf.drain).1.isEmpty = false := by
    simp [List.isEmpty_iff, hne]
  refine ⟨?_, ?_, ?_⟩ <;>
    simp [PipelineOrchestrator.handle_released, hE, hstt, hmode, hllm,
      AppState.set_pipeline, AppState.finalise]

/-- Witness for C3: Standard mode, one buffered sample, STT succeeding
and an LLM that always times out. -/
theorem C3_llm_failure_falls_back_to_raw_witness :
    (PipelineOrchestrator.handle_released
        { sampleBusyNonEmpty with
          shared :=
            { sampleBusyNonEmpty.shared with
              config := { operating_mode := OperatingMode.Standard } } }
        { sampleEnv with llm := fun _ _ => Except.error LlmError.Timeout }).1.shared.last_text
      = some "raw" := by
  exact (C3_llm_failure_falls_back_to_raw
    { sampleBusyNonEmpty with
      shared :=
        { sampleBusyNonEmpty.shared with
          config := { operating_mode := OperatingMode.Standard } } }
    { sampleEnv with llm := fun _ _ => Except.error LlmError.Timeout }
    "raw" LlmError.Timeout (by decide) (by decide) rfl rfl).2.1

/-- C10: whenever a release cycle ends in `Result`, the finalisation
step has set `last_text` to the final text and reset `raw_text` to
`none`, while `waveform`, `config` and `error_message` keep the values
they held on entry (the orchestrator never touches them during the
cycle) and `recording_secs` keeps the duration recorded in step 1 of the
cycle, namely the drained clip's length at 16 kHz. -/
theorem C10_result_frame_conditions (o : OrcState) (env : ReleaseEnv)
    (h : (PipelineOrchestrator.handle_released o env).1.shared.pipeline
      = PipelineState.Result) :
    (∃ t, (PipelineOrchestrator.handle_released o env).1.shared.last_text = some t) ∧
    (PipelineOrchestrator.handle_released o env).1.shared.raw_text = none ∧
    (PipelineOrchestrator.handle_released o env).1.shared.waveform = o.shared.waveform ∧
    (PipelineOrchestrator.handle_released o env).1.shared.config = o.shared.config ∧
    (PipelineOrchestrator.handle_released o env).1.shared.error_message
        = o.shared.error_message ∧
    (PipelineOrchestrator.handle_released o env).1.shared.recording_secs
        = (((o.audio_buf.drain).1.length : ℚ) / 16000) := by
  by_cases hE : (o.audio_buf.drain).1.isEmpty
  · exfalso
    simp [PipelineOrchestrator.handle_released, hE, AppState.set_error] at h
  · rw [Bool.not_eq_true] at hE
    cases hstt : env.stt (o.audio_buf.drain).1 with
    | panicked e =>
        exfalso
        simp [PipelineOrchestrator.handle_released, hE, hstt, AppState.set_error,
          AppState.set_pipeline] at h
    | ok r =>
      cases r with
      | error e =>
          exfalso
          simp [PipelineOrchestrator.handle_released, hE, hstt, AppState.set_error,
            AppState.set_pipeline] at h
      | ok raw =>
        by_cases hmode : o.shared.config.operating_mode = OperatingMode.Fast
        · refine ⟨⟨raw, ?_⟩, ?_, ?_, ?_, ?_, ?_⟩ <;>
            simp [PipelineOrchestrator.handle_released, hE, hstt, hmode,
              AppState.set_pipeline, AppState.finalise]
        · cases hllm : env.llm raw o.context.build_context with
          | ok corrected =>
              refine ⟨⟨corrected, ?_⟩, ?_, ?_, ?_, ?_, ?_⟩ <;>
                simp [PipelineOrchestrator.handle_released, hE, hstt, hmode, hllm,
                  AppState.set_pipeline, AppState.finalise]
          | error e =>
              refine ⟨⟨raw, ?_⟩, ?_, ?_, ?_, ?_, ?_⟩ <;>
                simp [PipelineOrchestrator.handle_released, hE, hstt, hmode, hllm,
                  AppState.set_pipeline, AppState.finalise]

/-- Witness for C10: a Fast-mode cycle that reaches `Result` has its raw
text cleared. -/
theorem C10_result_frame_conditions_witness :
    (PipelineOrchestrator.handle_released sampleBusyNonEmpty sampleEnv).1.shared.raw_text
      = none :=
  (C10_result_frame_conditions sampleBusyNonEmpty sampleEnv (by decide)).2.1

/-- No event of the orchestrator's alphabet behaves as the cancel
command the specification describes: a press moves a busy state to
`Recording`, a release on a busy state with an empty buffer ends in
`Error`, and a visibility toggle leaves a non-empty buffer untouched. -/
theorem not_cancelSpec (e : HotkeyEvent) : ¬ CancelSpec e := by
  cases e with
  | PushToTalkPressed =>
      intro h
      have h1 := (h sampleBusyEmpty sampleEnv (by decide)).1
      exact absurd h1 (by decide)
  | PushToTalkReleased =>
      intro h
      have h1 := (h sampleBusyEmpty sampleEnv (by decide)).1
      exact absurd h1 (by decide)
  | ToggleVisibility =>
      intro h
      have h1 := (h sampleBusyNonEmpty sampleEnv (by decide)).2.1
      exact absurd h1 (by decide)

/-- C2 counterexample: no event in the orchestrator's alphabet is an
explicit cancel command in the sense of the specification. -/
theorem C2_no_cancel_event : ¬ ∃ e : HotkeyEvent, CancelSpec e := by
  rintro ⟨e, h⟩
  exact not_cancelSpec e h

/-- C2 amended: the orchestrator's event alphabet is exactly
`PushToTalkPressed`, `PushToTalkReleased` and `ToggleVisibility`;
`ToggleVisibility` is ignored in every state, and no event of the
alphabet acts as the cancel command the specification describes. -/
theorem C2_amended_alphabet_has_no_cancel :
    (∀ (o : OrcState) (env : ReleaseEnv),
        PipelineOrchestrator.step o env HotkeyEvent.ToggleVisibility = (o, [])) ∧
    (∀ e : HotkeyEvent,
        e = HotkeyEvent.PushToTalkPressed ∨ e = HotkeyEvent.PushToTalkReleased ∨
          e = HotkeyEvent.ToggleVisibility) ∧
    (∀ e : HotkeyEvent, ¬ CancelSpec e) := by
  refine ⟨fun o env => rfl, fun e => by cases e <;> simp, not_cancelSpec⟩

/-- C1 counterexample: a drained clip of 10 samples fails
`AudioQuality.validate` with `TooShort`, yet the release path dispatches
exactly that clip to STT and the cycle ends in `Result` — no
audio-quality validation or VAD trimming happens between the drain and
the STT dispatch. -/
theorem C1_short_clip_reaches_stt :
    AudioQuality.defaults.validate ((sampleShortClipState.audio_buf.drain).1)
        = Except.error (AudioError.TooShort (1/2) (1/1600)) ∧
    Effect.sttCall ((sampleShortClipState.audio_buf.drain).1)
        ∈ (PipelineOrchestrator.handle_released sampleShortClipState sampleEnv).2 ∧
    (PipelineOrchestrator.handle_released sampleShortClipState sampleEnv).1.shared.pipeline
      = PipelineState.Result := by
  have hlen : (sampleShortClipState.audio_buf.drain).1 = List.replicate 10 (1/2 : ℚ) := by
    rfl
  refine ⟨?_, ?_, ?_⟩
  · rw [hlen]
    simp only [AudioQuality.validate, List.length_replicate]
    rw [if_pos (by norm_num [AudioQuality.defaults])]
    norm_num [AudioQuality.defaults]
  · exact List.Mem.head _
  · rfl

/-- C1 amended: for every release whose drained audio is non-empty, the
orchestrator dispatches the drained clip to STT exactly as drained — no
AudioQuality validation and no VAD trimming are applied on the release
path, and every clip handed to STT equals the drained clip. -/
theorem C1_amended_raw_clip_to_stt (o : OrcState) (env : ReleaseEnv)
    (hne : (o.audio_buf.drain).1 ≠ []) :
    Effect.sttCall ((o.audio_buf.drain).1)
        ∈ (PipelineOrchestrator.handle_released o env).2 ∧
    ∀ a, Effect.sttCall a ∈ (PipelineOrchestrator.handle_released o env).2 →
      a = (o.audio_buf.drain).1 := by
  have hE : (o.audio_buf.drain).1.isEmpty = false := by
    simp [List.isEmpty_iff, hne]
  cases hstt : env.stt (o.audio_buf.drain).1 with
  | panicked e =>
      refine ⟨?_, ?_⟩ <;>
        simp [PipelineOrchestrator.handle_released, hE, hstt]
  | ok r =>
    cases r with
    | error e =>
        refine ⟨?_, ?_⟩ <;>
          simp [PipelineOrchestrator.handle_released, hE, hstt]
    | ok raw =>
      by_cases hmode : o.shared.config.operating_mode = OperatingMode.Fast
      · refine ⟨?_, ?_⟩ <;>
          simp [PipelineOrchestrator.handle_released, hE, hstt, hmode,
            AppState.set_pipeline, AppState.finalise]
      · cases hllm : env.llm raw o.context.build_context with
        | ok corrected =>
            refine ⟨?_, ?_⟩ <;>
              simp [PipelineOrchestrator.handle_released, hE, hstt, hmode, hllm,
                AppState.set_pipeline, AppState.finalise]
        | error e2 =>
            refine ⟨?_, ?_⟩ <;>
              simp [PipelineOrchestrator.handle_released, hE, hstt, hmode, hllm,
                AppState.set_pipeline, AppState.finalise]

/-- The popping loop of `push_sentence` drops the window down to its
most recent `n` entries. -/
theorem trimToMax_eq_drop (n : Nat) (l : List String) :
    trimToMax n l = l.drop (l.length - n) := by
  induction l with
  | nil => simp [trimToMax]
  | cons s rest ih =>
    simp only [trimToMax, List.length_cons]
    by_cases h : n < rest.length + 1
    · rw [if_pos h, ih]
      have hsucc : rest.length + 1 - n = (rest.length - n) + 1 := by omega
      rw [hsucc, List.drop_succ_cons]
    · rw [if_neg h]
      have hz : rest.length + 1 - n = 0 := by omega
      rw [hz, List.drop_zero]

/-- Along a gap-free sequence of pushes, a window that holds the most
recent sentences of the history `S` keeps holding the most recent
sentences of the extended history. -/
theorem pushAll_sentences_no_gap (l : List (ℚ × String)) :
    ∀ (m : ContextManager) (S : List String), NoGap m l →
      m.sentences = S.drop (S.length - m.max_sentences) →
      (m.pushAll l).sentences
        = (S ++ l.map Prod.snd).drop ((S.length + l.length) - m.max_sentences) := by
  induction l with
  | nil =>
      intro m S _ hS
      simpa using hS
  | cons p rest ih =>
      intro m S hng hS
      obtain ⟨hgap, hng'⟩ := hng
      have hsent : (m.push_sentence p.1 p.2).sentences
          = (S ++ [p.2]).drop ((S.length + 1) - m.max_sentences) := by
        simp only [ContextManager.push_sentence]
        rw [if_neg hgap, trimToMax_eq_drop, hS]
        have hDeq : S.drop (S.length - m.max_sentences) ++ [p.2]
            = (S ++ [p.2]).drop (S.length - m.max_sentences) := by
          rw [List.drop_append_eq_append_drop]
          have hz : S.length - m.max_sentences - S.length = 0 := by omega
          rw [hz, List.drop_zero]
        rw [hDeq, List.drop_drop]
        congr 1
        simp only [List.length_append, List.length_drop, List.length_singleton]
        omega
      have hrec := ih (m.push_sentence p.1 p.2) (S ++ [p.2]) hng'
        (by
          rw [hsent]
          congr 1
          simp only [List.length_append, List.length_singleton]
          rfl)
      have hmax : (m.push_sentence p.1 p.2).max_sentences = m.max_sentences := rfl
      simp only [ContextManager.pushAll, hrec, hmax, List.length_append,
        List.length_singleton, List.length_nil, List.map_cons, List.length_cons]
      rw [List.append_assoc, List.singleton_append]
      congr 1
      omega

/-- C7: the context window length never exceeds the configured bound;
along a gap-free sequence of pushes starting from an empty window the
window holds exactly the most recently pushed sentences in oldest-first
order; and whenever the elapsed time since the previous push exceeds the
silence-reset threshold, the window is cleared before the new sentence
is inserted. -/
theorem C7_context_window_invariants :
    (∀ (m : ContextManager) (now : ℚ) (s : String),
        (m.push_sentence now s).sentences.length ≤ m.max_sentences) ∧
    (∀ (m : ContextManager) (l : List (ℚ × String)),
        NoGap m l → m.sentences = [] →
          (m.pushAll l).sentences
            = (l.map Prod.snd).drop (l.length - m.max_sentences)) ∧
    (∀ (m : ContextManager) (now : ℚ) (s : String),
        m.silence_reset < now - m.last_activity →
          (m.push_sentence now s).sentences = trimToMax m.max_sentences [s]) := by
  refine ⟨?_, ?_, ?_⟩
  · intro m now s
    simp only [ContextManager.push_sentence, trimToMax_eq_drop, List.length_drop]
    omega
  · intro m l hng hS
    have h := pushAll_sentences_no_gap l m [] hng (by simp [hS])
    simpa using h
  · intro m now s h
    simp only [ContextManager.push_sentence]
    rw [if_pos h, List.nil_append]

/-- Ceiling division used by `total_frames` evaluated on an exact
multiple of the frame size. -/
theorem frames_div (n fs : Nat) (h : 0 < fs) : (n * fs + fs - 1) / fs = n := by
  have h1 : n * fs + fs - 1 = (fs - 1) + n * fs := by omega
  rw [h1, Nat.mul_comm n fs, Nat.add_mul_div_left _ _ h, Nat.div_eq_of_lt (by omega)]
  omega

/-- Length of the concatenation of equally sized blocks. -/
theorem blocks_flatten_length (fs : Nat) :
    ∀ (blocks : List (List ℚ)), (∀ b ∈ blocks, b.length = fs) →
      blocks.flatten.length = blocks.length * fs := by
  intro blocks
  induction blocks with
  | nil => simp
  | cons b bs ih =>
      intro hb
      simp only [List.flatten_cons, List.length_append, List.length_cons]
      rw [ih (fun x hx => hb x (List.mem_cons_of_mem _ hx)),
        hb b (List.mem_cons_self _ _)]
      ring

/-- Flattening a replicated constant block gives a replicated constant. -/
theorem replicate_flatten (k fs : Nat) (c : ℚ) :
    (List.replicate k (List.replicate fs c)).flatten = List.replicate (k * fs) c := by
  induction k with
  | zero => simp
  | succ k ih =>
      rw [List.replicate_succ, List.flatten_cons, ih, ← List.replicate_add]
      congr 1
      ring

/-- Inside a concatenation of equally sized blocks, the window of one
frame size starting at a block boundary is exactly that block. -/
theorem take_drop_flatten_blocks (fs : Nat) :
    ∀ (blocks : List (List ℚ)) (i : Nat), (∀ b ∈ blocks, b.length = fs) →
      i < blocks.length →
      (blocks.flatten.drop (i * fs)).take fs = blocks.getD i [] := by
  intro blocks
  induction blocks with
  | nil => intro i _ hi; simp at hi
  | cons b bs ih =>
      intro i hb hi
      have hbfs : b.length = fs := hb b (List.mem_cons_self _ _)
      cases i with
      | zero =>
          simp only [Nat.zero_mul, List.drop_zero, List.flatten_cons,
            List.getD_cons_zero]
          rw [← hbfs, List.take_left]
      | succ i =>
          have hbs : ∀ x ∈ bs, x.length = fs := fun x hx =>
            hb x (List.mem_cons_of_mem _ hx)
          simp only [List.flatten_cons, List.getD_cons_succ]
          rw [List.drop_append_eq_append_drop,
            List.drop_eq_nil_of_le
              (by rw [hbfs]; exact Nat.le_mul_of_pos_left _ (by omega)),
            List.nil_append]
          have harg : (i + 1) * fs - b.length = i * fs := by
            rw [hbfs, Nat.succ_mul]
            omega
          rw [harg]
          exact ih i hbs (by simpa using hi)

/-- The source's frame slice, on a frame lying fully inside the clip. -/
theorem frameAt_eq_take_drop (v : VadDetector) (audio : List ℚ) (i : Nat)
    (h : (i + 1) * v.frame_size ≤ audio.length) :
    v.frameAt audio i = (audio.drop (i * v.frame_size)).take v.frame_size := by
  unfold VadDetector.frameAt
  rw [min_eq_left h]
  congr 1
  rw [Nat.succ_mul]
  omega

/-- A frame of digital silence is never classified as voice when the
threshold is nonnegative. -/
theorem is_voice_frame_replicate_zero (v : VadDetector) (ht : 0 ≤ v.rms_threshold)
    (n : Nat) : v.is_voice_frame (List.replicate n (0 : ℚ)) = false := by
  unfold VadDetector.is_voice_frame
  by_cases hn : (List.replicate n (0 : ℚ)).length = 0
  · rw [if_pos hn]
  · rw [if_neg hn]
    simp only [List.map_replicate, mul_zero, List.sum_replicate, smul_zero, zero_div]
    exact decide_eq_false (by push_neg; exact ⟨ht, mul_self_nonneg _⟩)

/-- A non-empty frame of constant amplitude whose square exceeds the
squared threshold is classified as voice. -/
theorem is_voice_frame_replicate_voice (v : VadDetector) (a : ℚ) (n : Nat)
    (hn : 0 < n) (h : v.rms_threshold * v.rms_threshold < a * a) :
    v.is_voice_frame (List.replicate n a) = true := by
  unfold VadDetector.is_voice_frame
  rw [if_neg (by simp only [List.length_replicate]; omega)]
  simp only [List.map_replicate, List.sum_replicate, List.length_replicate,
    nsmul_eq_mul]
  rw [mul_div_cancel_left₀ _ (by exact_mod_cast (by omega : n ≠ 0))]
  exact decide_eq_true (Or.inr h)

/-- A first-match search over an index range finds the least index
satisfying the predicate. -/
theorem find?_range_eq_some {p : Nat → Bool} {m n : Nat} (hm : m < n)
    (hp : p m = true) (hlt : ∀ j, j < m → p j = false) :
    (List.range n).find? p = some m := by
  induction n with
  | zero => omega
  | succ n ih =>
      rw [List.range_succ, List.find?_append]
      rcases Nat.lt_or_ge m n with h | h
      · rw [ih h]
        rfl
      · have hmn : m = n := by omega
        subst hmn
        have hnone : (List.range m).find? p = none :=
          List.find?_eq_none.mpr fun x hx => by
            rw [hlt x (List.mem_range.mp hx)]
            simp
        rw [hnone, Option.none_or, List.find?_cons_of_pos _ hp]

/-- A first-match search over a reversed index range finds the greatest
index satisfying the predicate (the source's `rfind`). -/
theorem find?_reverse_range_eq_some {p : Nat → Bool} {m n : Nat} (hm : m < n)
    (hp : p m = true) (hgt : ∀ j, m < j → p j = false) :
    (List.range n).reverse.find? p = some m := by
  induction n with
  | zero => omega
  | succ n ih =>
      rw [List.range_succ, List.reverse_append, List.reverse_singleton,
        List.singleton_append]
      rcases Nat.lt_or_ge m n with h | h
      · rw [List.find?_cons_of_neg _ (by rw [hgt n (by omega)]; simp)]
        exact ih h
      · have hmn : m = n := by omega
        subst hmn
        rw [List.find?_cons_of_pos _ hp]

/-- When no frame of the clip is classified as voice, `trim_silence`
returns the empty list. -/
theorem trim_silence_no_voice (v : VadDetector) (audio : List ℚ)
    (h : ∀ i, i < v.total_frames audio →
      v.is_voice_frame (v.frameAt audio i) = false) :
    v.trim_silence audio = [] := by
  unfold VadDetector.trim_silence
  by_cases hE : audio.isEmpty
  · rw [if_pos hE]
    exact List.isEmpty_iff.mp hE
  · rw [if_neg hE]
    have hnone : (List.range (v.total_frames audio)).find?
        (fun i => v.is_voice_frame (v.frameAt audio i)) = none :=
      List.find?_eq_none.mpr fun x hx => by
        rw [h x (List.mem_range.mp hx)]
        simp
    rw [hnone]

/-- On a frame-aligned silence, voice, silence clip of three equal
segments (constant voice amplitude above the nonnegative threshold),
`trim_silence` returns exactly the middle voice segment. -/
theorem trim_silence_aligned (fs k : Nat) (a t : ℚ) (hfs : 0 < fs) (hk : 1 ≤ k)
    (ht : 0 ≤ t) (hlt : t * t < a * a) :
    (VadDetector.with_frame_size t fs).trim_silence
        (List.replicate (k * fs) 0 ++ List.replicate (k * fs) a ++
          List.replicate (k * fs) 0)
      = List.replicate (k * fs) a := by
  set v := VadDetector.with_frame_size t fs with hv
  set clip := List.replicate (k * fs) (0 : ℚ) ++ List.replicate (k * fs) a ++
    List.replicate (k * fs) (0 : ℚ) with hclip
  have hvfs : v.frame_size = fs := rfl
  have hvt : v.rms_threshold = t := rfl
  have hcliplen : clip.length = 3 * k * fs := by
    simp only [hclip, List.length_append, List.length_replicate]
    ring
  set blocks := List.replicate k (List.replicate fs (0 : ℚ)) ++
    (List.replicate k (List.replicate fs a) ++
      List.replicate k (List.replicate fs (0 : ℚ))) with hblocks
  have hflat : blocks.flatten = clip := by
    simp only [hblocks, hclip, List.flatten_append, replicate_flatten,
      List.append_assoc]
  have hblen : blocks.length = 3 * k := by
    simp only [hblocks, List.length_append, List.length_replicate]
    ring
  have hb : ∀ b ∈ blocks, b.length = fs := by
    intro b hbmem
    simp only [hblocks, List.mem_append, List.mem_replicate] at hbmem
    rcases hbmem with ⟨_, rfl⟩ | ⟨_, rfl⟩ | ⟨_, rfl⟩ <;> simp
  have hgetD : ∀ i, i < 3 * k →
      blocks.getD i [] =
        List.replicate fs (if i < k then (0 : ℚ) else if i < 2 * k then a else 0) := by
    intro i hi
    by_cases h1 : i < k
    · rw [hblocks, List.getD_append _ _ _ _ (by simpa using h1),
        List.getD_eq_getElem _ _ (by simpa using h1), List.getElem_replicate,
        if_pos h1]
    · rw [hblocks, List.getD_append_right _ _ _ _ (by simpa using h1)]
      by_cases h2 : i < 2 * k
      · rw [List.getD_append _ _ _ _
          (by simp only [List.length_replicate]; omega),
          List.getD_eq_getElem _ _ (by simp only [List.length_replicate]; omega),
          List.getElem_replicate, if_neg h1, if_pos h2]
      · rw [List.getD_append_right _ _ _ _
          (by simp only [List.length_replicate]; omega),
          List.getD_eq_getElem _ _ (by simp only [List.length_replicate]; omega),
          List.getElem_replicate, if_neg h1, if_neg h2]
  have hframe : ∀ i, i < 3 * k →
      v.frameAt clip i =
        List.replicate fs (if i < k then (0 : ℚ) else if i < 2 * k then a else 0) := by
    intro i hi
    rw [frameAt_eq_take_drop v clip i
        (by rw [hcliplen, hvfs]; exact Nat.mul_le_mul_right _ (by omega)),
      hvfs, ← hflat, take_drop_flatten_blocks fs blocks i hb (by omega),
      hgetD i hi]
  have hP : ∀ i, i < 3 * k →
      v.is_voice_frame (v.frameAt clip i) = decide (k ≤ i ∧ i < 2 * k) := by
    intro i hi
    rw [hframe i hi]
    by_cases h1 : i < k
    · rw [if_pos h1, is_voice_frame_replicate_zero v (by rw [hvt]; exact ht)]
      exact (decide_eq_false (by omega)).symm
    · by_cases h2 : i < 2 * k
      · rw [if_neg h1, if_pos h2,
          is_voice_frame_replicate_voice v a fs hfs (by rw [hvt]; exact hlt)]
        exact (decide_eq_true (by omega)).symm
      · rw [if_neg h1, if_neg h2, is_voice_frame_replicate_zero v (by rw [hvt]; exact ht)]
        exact (decide_eq_false (by omega)).symm
  have hPbig : ∀ j, 3 * k ≤ j → v.is_voice_frame (v.frameAt clip j) = false := by
    intro j hj
    have hempty : v.frameAt clip j = [] := by
      unfold VadDetector.frameAt
      have hz : min ((j + 1) * v.frame_size) clip.length - j * v.frame_size = 0 := by
        rw [hcliplen, hvfs]
        have h3 : 3 * k * fs ≤ j * fs := Nat.mul_le_mul_right _ hj
        omega
      rw [hz, List.take_zero]
    rw [hempty]
    unfold VadDetector.is_voice_frame
    simp
  have htf : v.total_frames clip = 3 * k := by
    unfold VadDetector.total_frames
    rw [hcliplen, hvfs]
    exact frames_div (3 * k) fs hfs
  have hfind : (List.range (v.total_frames clip)).find?
      (fun i => v.is_voice_frame (v.frameAt clip i)) = some k := by
    rw [htf]
    refine find?_range_eq_some (by omega) ?_ ?_
    · rw [hP k (by omega)]
      exact decide_eq_true ⟨le_refl k, by omega⟩
    · intro j hj
      rw [hP j (by omega)]
      exact decide_eq_false (by omega)
  have hrfind : ((List.range (v.total_frames clip)).reverse.find?
      (fun i => v.is_voice_frame (v.frameAt clip i))) = some (2 * k - 1) := by
    rw [htf]
    refine find?_reverse_range_eq_some (by omega) ?_ ?_
    · rw [hP (2 * k - 1) (by omega)]
      exact decide_eq_true ⟨by omega, by omega⟩
    · intro j hj
      rcases Nat.lt_or_ge j (3 * k) with h3 | h3
      · rw [hP j h3]
        exact decide_eq_false (by omega)
      · exact hPbig j h3
  have hne : clip.isEmpty = false := by
    rw [List.isEmpty_eq_false]
    intro hnil
    have := hcliplen
    rw [hnil] at this
    simp at this
    omega
  unfold VadDetector.trim_silence
  rw [hne]
  simp only [Bool.false_eq_true, if_false, hfind, hrfind, Option.getD_some]
  have hsub : Nat.succ (2 * k - 1) = 2 * k := by omega
  have hmin : min ((2 * k - 1 + 1) * v.frame_size) clip.length = 2 * k * fs := by
    rw [hcliplen, hvfs]
    have h1 : (2 * k - 1 + 1) = 2 * k := by omega
    rw [h1]
    exact min_eq_left (Nat.mul_le_mul_right _ (by omega))
  rw [hmin, hvfs]
  have hargs : 2 * k * fs - k * fs = k * fs := by
    rw [← Nat.sub_mul]
    congr 1
    omega
  rw [hargs, hclip]
  have hz2 : k * fs - (k * fs + k * fs) = 0 := by omega
  simp only [List.drop_append_eq_append_drop, List.drop_replicate,
    List.length_replicate, List.length_append, Nat.sub_self, hz2,
    List.replicate_zero, List.nil_append, List.drop_zero]
  rw [List.take_append_of_le_length (by simp), List.take_replicate]
  simp

/-- C8 counterexample: the clip of three equal segments of two samples
each (silence, voice at amplitude 1, silence) with the default 480-frame
replaced by a 4-sample frame is not trimmed to its voice segment — the
first frame straddles the silence and the voice, so the result keeps the
leading silence. -/
theorem C8_counterexample :
    (VadDetector.with_frame_size (1/100) 4).trim_silence
        (List.replicate 2 (0 : ℚ) ++ List.replicate 2 (1 : ℚ) ++
          List.replicate 2 (0 : ℚ))
      = [0, 0, 1, 1] ∧
    ([0, 0, 1, 1] : List ℚ) ≠ List.replicate 2 (1 : ℚ) := by
  refine ⟨?_, by decide⟩
  have h0 : (VadDetector.with_frame_size (1/100) 4).is_voice_frame
      ((VadDetector.with_frame_size (1/100) 4).frameAt
        (List.replicate 2 (0 : ℚ) ++ List.replicate 2 (1 : ℚ) ++
          List.replicate 2 (0 : ℚ)) 0) = true := by
    have hfr : (VadDetector.with_frame_size (1/100) 4).frameAt
        (List.replicate 2 (0 : ℚ) ++ List.replicate 2 (1 : ℚ) ++
          List.replicate 2 (0 : ℚ)) 0 = [0, 0, 1, 1] := rfl
    rw [hfr]
    unfold VadDetector.is_voice_frame
    rw [if_neg (by norm_num)]
    exact decide_eq_true (Or.inr (by norm_num [VadDetector.with_frame_size]))
  have h1 : (VadDetector.with_frame_size (1/100) 4).is_voice_frame
      ((VadDetector.with_frame_size (1/100) 4).frameAt
        (List.replicate 2 (0 : ℚ) ++ List.replicate 2 (1 : ℚ) ++
          List.replicate 2 (0 : ℚ)) 1) = false := by
    have hfr : (VadDetector.with_frame_size (1/100) 4).frameAt
        (List.replicate 2 (0 : ℚ) ++ List.replicate 2 (1 : ℚ) ++
          List.replicate 2 (0 : ℚ)) 1 = [0, 0] := rfl
    rw [hfr]
    unfold VadDetector.is_voice_frame
    rw [if_neg (by norm_num)]
    exact decide_eq_false (by push_neg; constructor <;> norm_num [VadDetector.with_frame_size])
  have htf : (VadDetector.with_frame_size (1/100) 4).total_frames
      (List.replicate 2 (0 : ℚ) ++ List.replicate 2 (1 : ℚ) ++
        List.replicate 2 (0 : ℚ)) = 2 := rfl
  have hrange : List.range 2 = [0, 1] := rfl
  have hfind : (List.range 2).find?
      (fun i => (VadDetector.with_frame_size (1/100) 4).is_voice_frame
        ((VadDetector.with_frame_size (1/100) 4).frameAt
          (List.replicate 2 (0 : ℚ) ++ List.replicate 2 (1 : ℚ) ++
            List.replicate 2 (0 : ℚ)) i)) = some 0 := by
    rw [hrange]
    exact List.find?_cons_of_pos _ (by simpa using h0)
  have hrfind : ((List.range 2).reverse.find?
      (fun i => (VadDetector.with_frame_size (1/100) 4).is_voice_frame
        ((VadDetector.with_frame_size (1/100) 4).frameAt
          (List.replicate 2 (0 : ℚ) ++ List.replicate 2 (1 : ℚ) ++
            List.replicate 2 (0 : ℚ)) i))) = some 0 := by
    rw [hrange]
    have hrev : ([0, 1] : List Nat).reverse = [1, 0] := rfl
    rw [hrev, List.find?_cons_of_neg _ (by simpa using h1)]
    exact List.find?_cons_of_pos _ (by simpa using h0)
  unfold VadDetector.trim_silence
  rw [if_neg (by decide), htf, hfind, hrfind]
  rfl

/-- C8 amended: on silence, voice, silence clips of three equal-length
segments aligned to the frame size (digital silence, constant voice
amplitude whose square exceeds the squared nonnegative threshold),
`trim_silence` returns exactly the middle voice segment; and on every
clip in which no frame is classified as voice, `trim_silence` returns
the empty list. -/
theorem C8_amended_trim_silence :
    (∀ (fs k : Nat) (a t : ℚ), 0 < fs → 1 ≤ k → 0 ≤ t → t * t < a * a →
      (VadDetector.with_frame_size t fs).trim_silence
          (List.replicate (k * fs) 0 ++ List.replicate (k * fs) a ++
            List.replicate (k * fs) 0)
        = List.replicate (k * fs) a) ∧
    (∀ (v : VadDetector) (audio : List ℚ),
      (∀ i, i < v.total_frames audio →
        v.is_voice_frame (v.frameAt audio i) = false) →
      v.trim_silence audio = []) :=
  ⟨fun fs k a t hfs hk ht hlt => trim_silence_aligned fs k a t hfs hk ht hlt,
    trim_silence_no_voice⟩

/-- Witness for C1 as amended: one buffered sample flows to STT as
drained. -/
theorem C1_amended_raw_clip_to_stt_witness :
    (sampleBusyNonEmpty.audio_buf.drain).1 ≠ [] ∧
      Effect.sttCall ((sampleBusyNonEmpty.audio_buf.drain).1)
        ∈ (PipelineOrchestrator.handle_released sampleBusyNonEmpty sampleEnv).2 :=
  ⟨by decide, (C1_amended_raw_clip_to_stt sampleBusyNonEmpty sampleEnv (by decide)).1⟩

end VoiceToText
